import Mathlib

/-
  Verification of the circle-fitting core of compute_optimal_circle.py.

  The program fits horizontal rows of Lego pieces (height piece_height,
  widths quantized to multiples of piece_unit_width) into a disk of a
  given diameter, and reports the total mismatch area.  This file is a
  shallow embedding of that program over the real numbers:

  * Python floats are modelled as real numbers.
  * math.sqrt and math.acos are modelled by the total Mathlib functions
    Real.sqrt and Real.arccos.  The Python functions raise ValueError
    outside their domains ([0, inf) for sqrt, [-1, 1] for acos); the
    predicate UnrestrictedFitDefined below records the domain condition
    of the sqrt inside UnrestrictedFit, so that domain failures of the
    Python code are expressible.
  * The two loops of the program (the row loop of UnrestrictedFitHalf
    and the "while True" widening loop of ConsiderOutsidePieces) are
    modelled by structural recursion on an explicit iteration bound
    (halfFuel, outsideFuel).  The bounds are generous upper bounds on
    the number of iterations the Python loops perform; lemmas below
    show they are large enough, so the recursion returns exactly what
    the Python loops compute (the Python row loop advances y by
    piece_height each iteration while y + piece_height <= diameter/2;
    the widening loop strictly increases the candidate width by at
    least piece_unit_width per iteration and stops at the first
    candidate whose slice error does not improve).
  * Python float modulo a % b (used with b = piece_unit_width > 0) is
    a - b * floor(a / b), the function fmod below.
-/

open Real

noncomputable section

/-- A disk, determined by its diameter (FunnyCircle.__init__). -/
structure FunnyCircle where
  diameter : ℝ

/-- Python float modulo: a % b = a - b * floor(a / b). -/
def fmod (a b : ℝ) : ℝ := a - b * ⌊a / b⌋

/-- FunnyCircle.UnrestrictedFit: width of the widest rectangle of height
piece_height whose lower edge sits at height y, inscribed in the disk:
2 * sqrt((diameter/2)^2 - (y + piece_height)^2). -/
def UnrestrictedFit (c : FunnyCircle) (y piece_height : ℝ) : ℝ :=
  2 * Real.sqrt ((c.diameter / 2) ^ 2 - (y + piece_height) ^ 2)

/-- Domain condition of the sqrt inside UnrestrictedFit: Python math.sqrt
raises ValueError when its argument is negative, so the Python call
succeeds exactly when this holds. -/
def UnrestrictedFitDefined (c : FunnyCircle) (y piece_height : ℝ) : Prop :=
  0 ≤ (c.diameter / 2) ^ 2 - (y + piece_height) ^ 2

/-- FunnyCircle.ComputeSliceError: area of the disk outside the slice.
For a nonzero width this is |segment band area - width * height|;
for width 0 the code returns the area of the whole circular cap above y
(the band between y and the top of the disk). -/
def ComputeSliceError (c : FunnyCircle) (y piece_height piece_width : ℝ) : ℝ :=
  if piece_width ≠ 0 then
    |Real.arccos (y / (c.diameter / 2)) * (c.diameter / 2 * (c.diameter / 2))
      - Real.arccos ((y + piece_height) / (c.diameter / 2)) * (c.diameter / 2 * (c.diameter / 2))
      - y * Real.sqrt (c.diameter / 2 * (c.diameter / 2) - y * y)
      + (y + piece_height) *
          Real.sqrt (c.diameter / 2 * (c.diameter / 2) - (y + piece_height) * (y + piece_height))
      - piece_width * piece_height|
  else
    Real.arccos (y / (c.diameter / 2)) * (c.diameter / 2 * (c.diameter / 2))
      - y * Real.sqrt (c.diameter / 2 * (c.diameter / 2) - y * y)

/-- Modelled from the spec: the closed-form area of the circular band
between y and y + h given in section 4.1 of the specification
(segmentArea).  The program has no separate function for this; the
definition is stated here only to compare the code against the
specification text. -/
def segmentArea (c : FunnyCircle) (y h : ℝ) : ℝ :=
  Real.arccos (y / (c.diameter / 2)) * (c.diameter / 2) ^ 2
    - Real.arccos ((y + h) / (c.diameter / 2)) * (c.diameter / 2) ^ 2
    - y * Real.sqrt ((c.diameter / 2) ^ 2 - y ^ 2)
    + (y + h) * Real.sqrt ((c.diameter / 2) ^ 2 - (y + h) ^ 2)

/-- The step the widening loop of ConsiderOutsidePieces uses on its first
iteration when no row exists yet (try_extra computation in the
start branch): one piece_unit_width, plus another one when pips are
aligned with even parity. -/
def seedStep (piece_unit_width : ℝ) (align_pips align_even_number : Bool) : ℝ :=
  if align_pips && align_even_number then 2 * piece_unit_width else piece_unit_width

/-- The steady-state step of the widening loop of ConsiderOutsidePieces:
two piece_unit_widths when pips are aligned (preserving parity), one
otherwise. -/
def steadyStep (piece_unit_width : ℝ) (align_pips : Bool) : ℝ :=
  if align_pips then 2 * piece_unit_width else piece_unit_width

/-- The body of the "while True" loop of FunnyCircle.ConsiderOutsidePieces,
by structural recursion on the iteration bound.  State: current_min
(the best width so far), best_error (its slice error), start (whether we
are still on the very first candidate grown from width 0).  Each
iteration tries current_min + try_extra and accepts it only if its slice
error strictly improves; the first non-improving candidate stops the
loop.  Exhausting the bound returns current_min (lemmas below show the
bound chosen in ConsiderOutsidePieces is never exhausted). -/
def outsideGo (c : FunnyCircle) (y piece_height piece_unit_width : ℝ)
    (align_pips align_even_number : Bool) :
    ℕ → ℝ → ℝ → Bool → ℝ
  | 0, current_min, _, _ => current_min
  | fuel + 1, current_min, best_error, start =>
    if ComputeSliceError c y piece_height
        (current_min + (if start then seedStep piece_unit_width align_pips align_even_number
                        else steadyStep piece_unit_width align_pips)) < best_error then
      outsideGo c y piece_height piece_unit_width align_pips align_even_number fuel
        (current_min + (if start then seedStep piece_unit_width align_pips align_even_number
                        else steadyStep piece_unit_width align_pips))
        (ComputeSliceError c y piece_height
          (current_min + (if start then seedStep piece_unit_width align_pips align_even_number
                          else steadyStep piece_unit_width align_pips)))
        false
    else current_min

/-- Iteration bound for the widening loop: each accepted candidate grows
the width by at least piece_unit_width, and every candidate whose area
overshoot exceeds the initial error is rejected, so the loop stops within
this many iterations. -/
def outsideFuel (c : FunnyCircle) (y piece_height piece_unit_width in_best_error : ℝ) : ℕ :=
  ⌈(in_best_error + (Real.pi * (c.diameter / 2) ^ 2 + (y + piece_height) * (c.diameter / 2)))
      / (piece_unit_width * piece_height)⌉₊ + 2

/-- FunnyCircle.ConsiderOutsidePieces: greedily widen a row past the disk
boundary while the slice error strictly decreases.  start is set exactly
when the incoming width is zero. -/
def ConsiderOutsidePieces (c : FunnyCircle) (y piece_height piece_unit_width
    in_best_error in_best_width : ℝ) (align_pips align_even_number : Bool) : ℝ :=
  outsideGo c y piece_height piece_unit_width align_pips align_even_number
    (outsideFuel c y piece_height piece_unit_width in_best_error)
    in_best_width in_best_error (if in_best_width = 0 then true else false)

/-- The quantized width of FunnyCircle.UnrestrictedFitByPieceWidth before
any parity adjustment: uw_min = uw - uw % piece_unit_width. -/
def uw_min0 (c : FunnyCircle) (y piece_height piece_unit_width : ℝ) : ℝ :=
  UnrestrictedFit c y piece_height - fmod (UnrestrictedFit c y piece_height) piece_unit_width

/-- width_in_pips of FunnyCircle.UnrestrictedFitByPieceWidth:
int(floor(uw_min / piece_unit_width)). -/
def width_in_pips (c : FunnyCircle) (y piece_height piece_unit_width : ℝ) : ℤ :=
  ⌊uw_min0 c y piece_height piece_unit_width / piece_unit_width⌋

/-- The pip-parity adjustment of FunnyCircle.UnrestrictedFitByPieceWidth:
when the pip count parity matches the required parity (even when
align_even_number, odd otherwise) the width is kept; otherwise, when the
pip count is nonzero, one piece_unit_width is removed. -/
def alignedWidth (c : FunnyCircle) (y piece_height piece_unit_width : ℝ)
    (align_even_number : Bool) : ℝ :=
  if (align_even_number = true ∧ width_in_pips c y piece_height piece_unit_width % 2 = 0)
      ∨ (align_even_number = false ∧ width_in_pips c y piece_height piece_unit_width % 2 ≠ 0) then
    uw_min0 c y piece_height piece_unit_width
  else if width_in_pips c y piece_height piece_unit_width ≠ 0 then
    uw_min0 c y piece_height piece_unit_width - piece_unit_width
  else
    uw_min0 c y piece_height piece_unit_width

/-- FunnyCircle.UnrestrictedFitByPieceWidth: quantize the unrestricted
width down to a pip multiple, apply the parity adjustment when pips are
aligned, and optionally hand the result to ConsiderOutsidePieces. -/
def UnrestrictedFitByPieceWidth (c : FunnyCircle) (y piece_height piece_unit_width : ℝ)
    (align_pips align_even_number consider_outside : Bool) : ℝ :=
  if consider_outside then
    ConsiderOutsidePieces c y piece_height piece_unit_width
      (ComputeSliceError c y piece_height
        (if align_pips then alignedWidth c y piece_height piece_unit_width align_even_number
         else uw_min0 c y piece_height piece_unit_width))
      (if align_pips then alignedWidth c y piece_height piece_unit_width align_even_number
       else uw_min0 c y piece_height piece_unit_width)
      align_pips align_even_number
  else
    (if align_pips then alignedWidth c y piece_height piece_unit_width align_even_number
     else uw_min0 c y piece_height piece_unit_width)

/-- The row loop of FunnyCircle.UnrestrictedFitHalf, by structural
recursion on the iteration bound: while y + piece_height <= diameter/2,
compute the row width at y, record it, and advance y by piece_height;
afterwards append the zero-width sentinel row exactly when the last
computed width was nonzero. -/
def halfRowsAux (c : FunnyCircle) (piece_height piece_width : ℝ)
    (align_pips align_even_number consider_outside : Bool) :
    ℕ → ℝ → ℝ → List (ℝ × ℝ)
  | 0, _, _ => []
  | fuel + 1, y, last_width =>
    if y + piece_height ≤ c.diameter / 2 then
      (y, UnrestrictedFitByPieceWidth c y piece_height piece_width
            align_pips align_even_number consider_outside) ::
        halfRowsAux c piece_height piece_width align_pips align_even_number consider_outside
          fuel (y + piece_height)
          (UnrestrictedFitByPieceWidth c y piece_height piece_width
            align_pips align_even_number consider_outside)
    else if last_width ≠ 0 then [(y, 0)] else []

/-- Iteration bound for the row loop: the loop advances y by piece_height
per iteration starting from vertical_offset and stops once y exceeds
diameter/2 - piece_height. -/
def halfFuel (c : FunnyCircle) (piece_height vertical_offset : ℝ) : ℕ :=
  ⌈(c.diameter / 2 - vertical_offset) / piece_height⌉₊ + 1

/-- FunnyCircle.UnrestrictedFitHalf: the list of (y, width) rows of one
half disk, starting at vertical_offset, with the zero-width sentinel. -/
def UnrestrictedFitHalf (c : FunnyCircle) (piece_height piece_width vertical_offset : ℝ)
    (align_pips align_even_number consider_outside : Bool) : List (ℝ × ℝ) :=
  halfRowsAux c piece_height piece_width align_pips align_even_number consider_outside
    (halfFuel c piece_height vertical_offset) vertical_offset 0

/-- FunnyCircle.ComputeError: the sum of the slice errors of the rows. -/
def ComputeError (c : FunnyCircle) (widths_of_pieces : List (ℝ × ℝ)) (piece_height : ℝ) : ℝ :=
  (widths_of_pieces.map (fun p => ComputeSliceError c p.1 piece_height p.2)).sum

/-- FunnyCircle.FitCircleSplitMiddle: rows from offset 0, no middle row,
error twice the half-disk error. -/
def FitCircleSplitMiddle (c : FunnyCircle) (piece_height piece_width : ℝ)
    (align_pips align_even_number consider_outside : Bool) : List (ℝ × ℝ) × ℝ × ℝ :=
  (UnrestrictedFitHalf c piece_height piece_width 0
      align_pips align_even_number consider_outside,
   0,
   2 * ComputeError c
        (UnrestrictedFitHalf c piece_height piece_width 0
          align_pips align_even_number consider_outside)
        piece_height)

/-- FunnyCircle.FitCircleOffsetMiddleHalfPiece: rows from offset
piece_height/2, a middle row of height piece_height/2 solved at y = 0,
and the reported error.  Note that the middle term of the error is
computed, as in the source, from piece_width (the pip width argument),
not from the middle row width that was just solved. -/
def FitCircleOffsetMiddleHalfPiece (c : FunnyCircle) (piece_height piece_width : ℝ)
    (align_pips align_even_number consider_outside : Bool) : List (ℝ × ℝ) × ℝ × ℝ :=
  (UnrestrictedFitHalf c piece_height piece_width (piece_height / 2)
      align_pips align_even_number consider_outside,
   UnrestrictedFitByPieceWidth c 0 (piece_height / 2) piece_width
      align_pips align_even_number consider_outside,
   2 * ComputeError c
        (UnrestrictedFitHalf c piece_height piece_width (piece_height / 2)
          align_pips align_even_number consider_outside)
        piece_height
     + 2 * ComputeSliceError c 0 (piece_height / 2) piece_width)

/-- The six (strategy, alignment) solutions built by FitCircle, in source
order, each tagged with its aligned flag. -/
def sixCombos (c : FunnyCircle) (piece_height pip_width : ℝ) (consider_outside : Bool) :
    List ((List (ℝ × ℝ) × ℝ × ℝ) × Bool) :=
  [(FitCircleSplitMiddle c piece_height pip_width false false consider_outside, false),
   (FitCircleOffsetMiddleHalfPiece c piece_height pip_width false false consider_outside, false),
   (FitCircleSplitMiddle c piece_height pip_width true true consider_outside, true),
   (FitCircleOffsetMiddleHalfPiece c piece_height pip_width true true consider_outside, true),
   (FitCircleSplitMiddle c piece_height pip_width true false consider_outside, true),
   (FitCircleOffsetMiddleHalfPiece c piece_height pip_width true false consider_outside, true)]

/-- The value of Python min over a list of reals (first element as the
initial accumulator; the lists this is applied to are never empty). -/
def pythonMinVal : List ℝ → ℝ
  | [] => 0
  | x :: xs => xs.foldl min x

/-- FitCircle: build the six solutions and report the best (minimum)
error among the aligned ones and, independently, among the unaligned
ones.  The source performs no validation of diameter, piece_height or
pip_width; every real input flows straight into the geometry. -/
def FitCircle (diameter piece_height pip_width : ℝ) (consider_outside : Bool) : ℝ × ℝ :=
  (pythonMinVal
      (((sixCombos ⟨diameter⟩ piece_height pip_width consider_outside).filter
          (fun x => x.2)).map (fun x => x.1.2.2)),
   pythonMinVal
      (((sixCombos ⟨diameter⟩ piece_height pip_width consider_outside).filter
          (fun x => !x.2)).map (fun x => x.1.2.2)))

end

section GeometryClaims

/-- The arccos of one half is a third of pi (used to evaluate the band
area of the disk of diameter 4 at height 1). -/
theorem arccos_half : Real.arccos (1 / 2) = Real.pi / 3 := by
  rw [← Real.cos_pi_div_three]
  exact Real.arccos_cos (by positivity) (by linarith [Real.pi_pos])

/-- The square root of four is two. -/
theorem sqrt_four : Real.sqrt 4 = 2 := by
  rw [show (4 : ℝ) = 2 ^ 2 by norm_num, Real.sqrt_sq (by norm_num : (0:ℝ) ≤ 2)]

/-- C10: for a zero-width row the slice error returned by
ComputeSliceError is the area of the whole circular cap above y and does
not depend on the height argument at all. -/
theorem sliceError_zero_width_ignores_height (c : FunnyCircle) (y : ℝ)
    (hy : 0 ≤ y) (hyr : y ≤ c.diameter / 2) (h1 h2 : ℝ) :
    ComputeSliceError c y h1 0 = ComputeSliceError c y h2 0 := by
  simp [ComputeSliceError]

/-- Witness for C10 at the disk of diameter 2, y = 0, heights 1 and 5. -/
theorem sliceError_zero_width_ignores_height_witness :
    (0:ℝ) ≤ 0 ∧ (0:ℝ) ≤ (⟨2⟩ : FunnyCircle).diameter / 2 ∧
      ComputeSliceError ⟨2⟩ 0 1 0 = ComputeSliceError ⟨2⟩ 0 5 0 :=
  ⟨le_refl 0, by norm_num,
    sliceError_zero_width_ignores_height ⟨2⟩ 0 (le_refl 0) (by norm_num) 1 5⟩

/-- C2 counterexample: for the disk of diameter 4, at y = 0 with height 1,
the zero-width slice error (the whole cap above 0, area 2 pi) differs
from segmentArea(0, 1) (the band between 0 and 1): the code charges the
entire cap above y for a zero-width row, not just the band of height h. -/
theorem sliceError_zero_width_ne_segmentArea :
    ComputeSliceError ⟨4⟩ 0 1 0 ≠ segmentArea ⟨4⟩ 0 1 := by
  have h3 : Real.sqrt 3 ≤ 2 := by
    calc Real.sqrt 3 ≤ Real.sqrt 4 := Real.sqrt_le_sqrt (by norm_num)
    _ = 2 := sqrt_four
  have hpi : (3:ℝ) < Real.pi := Real.pi_gt_three
  have lhs : ComputeSliceError ⟨4⟩ 0 1 0 = 2 * Real.pi := by
    simp [ComputeSliceError, Real.arccos_zero]
    ring
  have rhs : segmentArea ⟨4⟩ 0 1 = 2 / 3 * Real.pi + Real.sqrt 3 := by
    simp only [segmentArea]
    norm_num [Real.arccos_zero, arccos_half]
    ring
  rw [lhs, rhs]
  intro hcontra
  nlinarith

/-- C2 amended: the zero-width slice error equals the spec segmentArea
formula evaluated on the band from y all the way to the top of the disk,
segmentArea(y, radius - y), rather than segmentArea(y, h). -/
theorem sliceError_zero_width_eq_cap (c : FunnyCircle) (y h : ℝ) :
    ComputeSliceError c y h 0 = segmentArea c y (c.diameter / 2 - y) := by
  by_cases hr : c.diameter / 2 = 0
  · have hs : Real.sqrt (-(y * y)) = 0 :=
      Real.sqrt_eq_zero'.mpr (by nlinarith)
    have hs2 : Real.sqrt (-y ^ 2) = 0 :=
      Real.sqrt_eq_zero'.mpr (by nlinarith)
    simp [ComputeSliceError, segmentArea, hr, hs, hs2]
  · have h1 : y + (c.diameter / 2 - y) = c.diameter / 2 := by ring
    have h2 : c.diameter / 2 / (c.diameter / 2) = 1 := div_self hr
    have h3 : (c.diameter / 2) ^ 2 - (c.diameter / 2) ^ 2 = 0 := by ring
    simp only [ComputeSliceError, segmentArea, h1, h2, h3, Real.arccos_one,
      Real.sqrt_zero, mul_zero, zero_mul, sub_zero, add_zero]
    simp
    ring

/-- C4 counterexample: with diameter 1 the sqrt argument of
UnrestrictedFit at (y, h) = (0, 1) is negative, so Python math.sqrt
raises a ValueError instead of returning zero; this very call is made by
FitCircleOffsetMiddleHalfPiece (the middle row of height
piece_height / 2 = 1 solved at y = 0) when FitCircle is run with
diameter 1 and the default piece height 2. -/
theorem chordHalfWidth_domain_failure : ¬ UnrestrictedFitDefined ⟨1⟩ 0 1 := by
  norm_num [UnrestrictedFitDefined]

/-- C4 amended: whenever the far edge y + h of a requested row lies
strictly above the radius (for a nonnegative diameter), the sqrt inside
UnrestrictedFit receives a strictly negative argument: the code raises a
domain error there, and performs no clamping. -/
theorem chordHalfWidth_negative_sqrt_arg (c : FunnyCircle) (y h : ℝ)
    (hy : 0 ≤ y) (hd : 0 ≤ c.diameter) (hr : c.diameter / 2 < y + h) :
    ¬ UnrestrictedFitDefined c y h := by
  have hd2 : 0 ≤ c.diameter / 2 := by linarith
  simp only [UnrestrictedFitDefined, not_le]
  nlinarith

/-- Witness for the amended C4 theorem at diameter 2, y = 0, h = 2. -/
theorem chordHalfWidth_negative_sqrt_arg_witness :
    (0:ℝ) ≤ 0 ∧ (0:ℝ) ≤ (⟨2⟩ : FunnyCircle).diameter ∧
      (⟨2⟩ : FunnyCircle).diameter / 2 < 0 + 2 ∧ ¬ UnrestrictedFitDefined ⟨2⟩ 0 2 :=
  ⟨le_refl 0, by norm_num, by norm_num,
    chordHalfWidth_negative_sqrt_arg ⟨2⟩ 0 2 (le_refl 0) (by norm_num) (by norm_num)⟩

end GeometryClaims

section RowLoopHelpers

/-- When even the first row does not fit below the radius, the row loop
exits immediately and no sentinel is appended (the last width is still
the initial zero), so the row list is empty. -/
theorem UnrestrictedFitHalf_stop (c : FunnyCircle) (h pw offset : ℝ) (ap ae co : Bool)
    (hcond : ¬ (offset + h ≤ c.diameter / 2)) :
    UnrestrictedFitHalf c h pw offset ap ae co = [] := by
  simp only [UnrestrictedFitHalf, halfFuel]
  simp [halfRowsAux, hcond]

/-- The quantized width before parity adjustment is the pip width times
the floor of the unrestricted width over the pip width. -/
theorem uw_min0_eq (c : FunnyCircle) (y h pw : ℝ) :
    uw_min0 c y h pw = pw * ⌊UnrestrictedFit c y h / pw⌋ := by
  simp [uw_min0, fmod]

/-- The unrestricted width of the disk of diameter 4 at y = 0, h = 1. -/
theorem unrestrictedFit_d4 : UnrestrictedFit ⟨4⟩ 0 1 = 2 * Real.sqrt 3 := by
  simp [UnrestrictedFit]
  norm_num

end RowLoopHelpers

/-- C3: with diameter 3 and piece height 2 no row fits, so every strategy
produces an empty row list; but the split-at-equator total error the code
reports is then 0, not the full-disk area 2 * segmentArea(0, 1.5)
(which is nonzero): with no rows there is no sentinel row, so nothing
ever charges the uncovered disk. -/
theorem degenerate_small_diameter_eval :
    ∀ ap ae co : Bool,
      (FitCircleSplitMiddle ⟨3⟩ 2 5 ap ae co).1 = [] ∧
      (FitCircleOffsetMiddleHalfPiece ⟨3⟩ 2 5 ap ae co).1 = [] ∧
      (FitCircleSplitMiddle ⟨3⟩ 2 5 ap ae co).2.2 = 0 ∧
      2 * segmentArea ⟨3⟩ 0 (3 / 2) ≠ 0 := by
  intro ap ae co
  have e1 : UnrestrictedFitHalf ⟨3⟩ 2 5 0 ap ae co = [] :=
    UnrestrictedFitHalf_stop _ _ _ _ _ _ _ (by norm_num)
  have e2 : UnrestrictedFitHalf ⟨3⟩ 2 5 (2 / 2) ap ae co = [] :=
    UnrestrictedFitHalf_stop _ _ _ _ _ _ _ (by norm_num)
  refine ⟨e1, ?_, ?_, ?_⟩
  · simpa [FitCircleOffsetMiddleHalfPiece] using e2
  · simp [FitCircleSplitMiddle, ComputeError, e1]
  · have hval : segmentArea ⟨3⟩ 0 (3 / 2) = 9 / 8 * Real.pi := by
      simp only [segmentArea]
      norm_num [Real.arccos_zero, Real.arccos_one]
      ring
    rw [hval]
    have hpi := Real.pi_pos
    positivity

/-- C1: with diameter 4, piece height 2, pip width 1, unaligned and no
outside search, the middle row solved by the row width solver has width 3,
yet the reported error of the offset strategy adds the slice error of a
width 1 middle row (the pip width), and the two slice errors differ:
the code computes middle_piece_width and then charges the middle band
with piece_width instead. -/
theorem offset_middle_error_uses_pip_width :
    (FitCircleOffsetMiddleHalfPiece ⟨4⟩ 2 1 false false false).2.1 = 3 ∧
    (FitCircleOffsetMiddleHalfPiece ⟨4⟩ 2 1 false false false).2.2 =
      2 * ComputeError ⟨4⟩ (FitCircleOffsetMiddleHalfPiece ⟨4⟩ 2 1 false false false).1 2
        + 2 * ComputeSliceError ⟨4⟩ 0 1 1 ∧
    ComputeSliceError ⟨4⟩ 0 1 1 ≠ ComputeSliceError ⟨4⟩ 0 1 3 := by
  have hs3 : Real.sqrt 3 * Real.sqrt 3 = 3 :=
    Real.mul_self_sqrt (by norm_num)
  have hs3n : 0 ≤ Real.sqrt 3 := Real.sqrt_nonneg 3
  have hfloor : ⌊2 * Real.sqrt 3 / 1⌋ = (3 : ℤ) := by
    rw [Int.floor_eq_iff]
    constructor
    · push_cast
      nlinarith
    · push_cast
      nlinarith
  refine ⟨?_, ?_, ?_⟩
  · simp only [FitCircleOffsetMiddleHalfPiece, UnrestrictedFitByPieceWidth]
    norm_num
    rw [uw_min0_eq]
    norm_num [unrestrictedFit_d4] at hfloor ⊢
    rw [hfloor]
    norm_num
  · simp only [FitCircleOffsetMiddleHalfPiece]
    norm_num
  · have hX : ∀ w : ℝ, w ≠ 0 →
        ComputeSliceError ⟨4⟩ 0 1 w = |2 / 3 * Real.pi + Real.sqrt 3 - w| := by
      intro w hw
      simp only [ComputeSliceError, if_pos hw]
      norm_num [Real.arccos_zero, arccos_half]
      congr 1
      ring
    have hpi : (3:ℝ) < Real.pi := Real.pi_gt_three
    have hs1 : (1:ℝ) < Real.sqrt 3 := by nlinarith
    have hXgt : (3:ℝ) < 2 / 3 * Real.pi + Real.sqrt 3 := by linarith
    rw [hX 1 one_ne_zero, hX 3 three_ne_zero]
    rw [abs_of_pos (by linarith), abs_of_pos (by linarith)]
    intro hcontra
    linarith

section ValidationClaim

/-- For a nonpositive diameter no row ever fits: both strategies return
empty row lists, the split errors are 0 and the offset errors are
nonnegative, so both champions reported by FitCircle are 0.  No
rejection of the input happens anywhere on this path. -/
theorem fitCircle_nonpos_eval (d : ℝ) (co : Bool) (hd : d ≤ 0) :
    FitCircle d 2 5 co = (0, 0) := by
  have hsplitrows : ∀ ap ae : Bool, UnrestrictedFitHalf ⟨d⟩ 2 5 0 ap ae co = [] := by
    intro ap ae
    refine UnrestrictedFitHalf_stop _ _ _ _ _ _ _ ?_
    simp only [FunnyCircle.mk.injEq]
    push_neg
    simp
    linarith
  have hoffrows : ∀ ap ae : Bool, UnrestrictedFitHalf ⟨d⟩ 2 5 1 ap ae co = [] := by
    intro ap ae
    refine UnrestrictedFitHalf_stop _ _ _ _ _ _ _ ?_
    push_neg
    simp
    linarith
  have hsplit : ∀ ap ae : Bool, (FitCircleSplitMiddle ⟨d⟩ 2 5 ap ae co).2.2 = 0 := by
    intro ap ae
    simp [FitCircleSplitMiddle, ComputeError, hsplitrows ap ae]
  have hcse : 0 ≤ 2 * ComputeSliceError ⟨d⟩ 0 1 5 := by
    rw [ComputeSliceError, if_pos (by norm_num : (5:ℝ) ≠ 0)]
    positivity
  have hoff : ∀ ap ae : Bool,
      (FitCircleOffsetMiddleHalfPiece ⟨d⟩ 2 5 ap ae co).2.2 =
        2 * ComputeSliceError ⟨d⟩ 0 1 5 := by
    intro ap ae
    simp [FitCircleOffsetMiddleHalfPiece, ComputeError, hoffrows ap ae]
  simp only [FitCircle, sixCombos, List.filter, List.map, pythonMinVal, List.foldl]
  rw [hsplit true true, hsplit true false, hoff true true, hoff true false,
    hsplit false false, hoff false false]
  rw [min_eq_left hcse]
  rw [min_self]
  rw [min_eq_left hcse]

end ValidationClaim

/-- C5 counterexample: with diameter -4 (an input the spec says must be
rejected before any geometric computation) the program performs the full
geometric computation: FitCircle reports champion errors (0, 0) and the
split-at-equator strategy produces the Solution with empty rows, middle
width 0 and total error 0.  Nothing is rejected: there is no validation
anywhere in FitCircle or main. -/
theorem no_validation_counterexample :
    FitCircle (-4) 2 5 true = (0, 0) ∧
    FitCircleSplitMiddle ⟨-4⟩ 2 5 false false true = ([], 0, 0) := by
  constructor
  · exact fitCircle_nonpos_eval (-4) true (by norm_num)
  · have e : UnrestrictedFitHalf ⟨-4⟩ 2 5 0 false false true = [] :=
      UnrestrictedFitHalf_stop _ _ _ _ _ _ _ (by norm_num)
    simp [FitCircleSplitMiddle, ComputeError, e]

/-- C5 amended: no input validation exists: nonpositive diameters are
not rejected before geometric computation.  For every diameter at most
-2 (with the default piece height 2 and pip width 5, and either setting
of the outside search) every sqrt argument the run encounters is within
domain - in particular the middle-row chord computation
UnrestrictedFit(0, pieceHeight/2), the one sqrt that a nonpositive
diameter can drive negative, receives a nonnegative argument - so the
program runs the full geometric computation to completion and reports
champion errors (0, 0) instead of rejecting the input.  (For diameters
in (-2, 0] that same sqrt argument is negative and the program instead
dies with an unhandled ValueError inside the geometry, which is also
not a validation rejection.) -/
theorem no_validation_nonpositive_inputs (d : ℝ) (co : Bool) (hd : d ≤ -2) :
    UnrestrictedFitDefined ⟨d⟩ 0 (2 / 2) ∧ FitCircle d 2 5 co = (0, 0) := by
  constructor
  · simp only [UnrestrictedFitDefined]
    nlinarith [sq_nonneg (d + 2)]
  · exact fitCircle_nonpos_eval d co (by linarith)

/-- Witness for the amended C5 theorem at diameter -6. -/
theorem no_validation_nonpositive_inputs_witness :
    (-6 : ℝ) ≤ -2 ∧ UnrestrictedFitDefined ⟨-6⟩ 0 (2 / 2) ∧
      FitCircle (-6) 2 5 false = (0, 0) :=
  ⟨by norm_num, (no_validation_nonpositive_inputs (-6) false (by norm_num)).1,
    (no_validation_nonpositive_inputs (-6) false (by norm_num)).2⟩

section GreedyLemmas

/-- Unfolding equation of the widening loop at zero fuel. -/
theorem outsideGo_zero (c : FunnyCircle) (y h pw : ℝ) (ap ae : Bool)
    (cur best : ℝ) (start : Bool) :
    outsideGo c y h pw ap ae 0 cur best start = cur := rfl

/-- Unfolding equation of the widening loop at positive fuel. -/
theorem outsideGo_succ (c : FunnyCircle) (y h pw : ℝ) (ap ae : Bool)
    (fuel : ℕ) (cur best : ℝ) (start : Bool) :
    outsideGo c y h pw ap ae (fuel + 1) cur best start =
      if ComputeSliceError c y h
          (cur + (if start then seedStep pw ap ae else steadyStep pw ap)) < best then
        outsideGo c y h pw ap ae fuel
          (cur + (if start then seedStep pw ap ae else steadyStep pw ap))
          (ComputeSliceError c y h
            (cur + (if start then seedStep pw ap ae else steadyStep pw ap)))
          false
      else cur := rfl

/-- The seed step is at least one pip width. -/
theorem seedStep_ge (pw : ℝ) (hpw : 0 ≤ pw) (ap ae : Bool) : pw ≤ seedStep pw ap ae := by
  unfold seedStep
  split <;> linarith

/-- The steady step is at least one pip width. -/
theorem steadyStep_ge (pw : ℝ) (hpw : 0 ≤ pw) (ap : Bool) : pw ≤ steadyStep pw ap := by
  unfold steadyStep
  split <;> linarith

/-- The step used by any iteration is at least one pip width. -/
theorem stepOf_ge (pw : ℝ) (hpw : 0 ≤ pw) (ap ae : Bool) (start : Bool) :
    pw ≤ (if start then seedStep pw ap ae else steadyStep pw ap) := by
  cases start
  · simpa using steadyStep_ge pw hpw ap
  · simpa using seedStep_ge pw hpw ap ae

/-- The widening loop never shrinks the width. -/
theorem outsideGo_le (c : FunnyCircle) (y h pw : ℝ) (ap ae : Bool) (hpw : 0 ≤ pw) :
    ∀ (fuel : ℕ) (cur best : ℝ) (start : Bool),
      cur ≤ outsideGo c y h pw ap ae fuel cur best start := by
  intro fuel
  induction fuel with
  | zero =>
    intro cur best start
    rw [outsideGo_zero]
  | succ n ih =>
    intro cur best start
    rw [outsideGo_succ]
    set t := if start = true then seedStep pw ap ae else steadyStep pw ap with ht
    have htge : pw ≤ t := stepOf_ge pw hpw ap ae start
    split
    · calc cur ≤ cur + t := by linarith
        _ ≤ _ := ih _ _ _
    · exact le_refl cur

/-- Each step of the widening loop is a natural multiple of the pip
width. -/
theorem stepOf_multiple (pw : ℝ) (ap ae : Bool) (start : Bool) :
    ∃ j : ℕ, (if start then seedStep pw ap ae else steadyStep pw ap) = j * pw := by
  cases start
  · unfold steadyStep
    by_cases hap : ap = true
    · exact ⟨2, by simp [hap]⟩
    · refine ⟨1, ?_⟩
      simp at hap
      simp [hap]
  · unfold seedStep
    by_cases hse : (ap && ae) = true
    · exact ⟨2, by simp [hse]⟩
    · refine ⟨1, ?_⟩
      simp [hse]

/-- The widening loop preserves the property of being a natural multiple
of the pip width. -/
theorem outsideGo_pip_multiple (c : FunnyCircle) (y h pw : ℝ) (ap ae : Bool) :
    ∀ (fuel : ℕ) (cur best : ℝ) (start : Bool),
      (∃ n : ℕ, cur = n * pw) →
      ∃ m : ℕ, outsideGo c y h pw ap ae fuel cur best start = m * pw := by
  intro fuel
  induction fuel with
  | zero =>
    intro cur best start hcur
    rw [outsideGo_zero]
    exact hcur
  | succ n ih =>
    intro cur best start hcur
    rw [outsideGo_succ]
    set t := if start = true then seedStep pw ap ae else steadyStep pw ap with ht
    split
    · apply ih
      obtain ⟨m, hm⟩ := hcur
      obtain ⟨j, hj⟩ := stepOf_multiple pw ap ae start
      rw [← ht] at hj
      refine ⟨m + j, ?_⟩
      rw [hm, hj]
      push_cast
      ring
    · exact hcur

/-- The slice error of the width returned by the widening loop never
exceeds the incoming best error (which is the slice error of the
incoming width): the loop only ever accepts strict improvements. -/
theorem outsideGo_slice_le (c : FunnyCircle) (y h pw : ℝ) (ap ae : Bool) :
    ∀ (fuel : ℕ) (cur best : ℝ) (start : Bool),
      best = ComputeSliceError c y h cur →
      ComputeSliceError c y h (outsideGo c y h pw ap ae fuel cur best start) ≤ best := by
  intro fuel
  induction fuel with
  | zero =>
    intro cur best start hbest
    rw [outsideGo_zero, hbest]
  | succ n ih =>
    intro cur best start hbest
    rw [outsideGo_succ]
    set t := if start = true then seedStep pw ap ae else steadyStep pw ap with ht
    split
    · rename_i hacc
      have h2 := ih (cur + t) (ComputeSliceError c y h (cur + t)) false rfl
      linarith
    · rw [hbest]

/-- Step structure of the widening loop: either nothing is accepted and
the incoming width is returned, or the first candidate (one step of the
appropriate kind away) strictly improved, the returned width is the
incoming width plus one first step plus some number of steady steps, and
its slice error strictly improves on the incoming error. -/
theorem outsideGo_steps (c : FunnyCircle) (y h pw : ℝ) (ap ae : Bool) :
    ∀ (fuel : ℕ) (cur best : ℝ) (start : Bool),
      best = ComputeSliceError c y h cur →
      outsideGo c y h pw ap ae fuel cur best start = cur ∨
      (ComputeSliceError c y h
          (cur + (if start then seedStep pw ap ae else steadyStep pw ap)) < best ∧
       ComputeSliceError c y h (outsideGo c y h pw ap ae fuel cur best start) < best ∧
       ∃ k : ℕ, outsideGo c y h pw ap ae fuel cur best start =
         cur + (if start then seedStep pw ap ae else steadyStep pw ap)
           + k * steadyStep pw ap) := by
  intro fuel
  induction fuel with
  | zero =>
    intro cur best start hbest
    left
    rw [outsideGo_zero]
  | succ n ih =>
    intro cur best start hbest
    rw [outsideGo_succ]
    set t := if start = true then seedStep pw ap ae else steadyStep pw ap with ht
    split
    · rename_i hacc
      right
      have hInner := ih (cur + t) (ComputeSliceError c y h (cur + t)) false rfl
      have hstep : (if (false : Bool) = true then seedStep pw ap ae else steadyStep pw ap) =
          steadyStep pw ap := by simp
      rw [hstep] at hInner
      refine ⟨hacc, ?_, ?_⟩
      · rcases hInner with h1 | ⟨h2a, h2b, h2c⟩
        · rw [h1]
          exact hacc
        · linarith
      · rcases hInner with h1 | ⟨h2a, h2b, k, hk⟩
        · refine ⟨0, ?_⟩
          rw [h1]
          push_cast
          ring
        · refine ⟨k + 1, ?_⟩
          rw [hk]
          push_cast
          ring
    · left
      rfl

end GreedyLemmas

section GreedyTermination

/-- Crude lower bound on the slice error: the rectangle area w * h minus
the upper bound pi * r^2 + (y + h) * r on the band expression.  Once the
candidate width is large enough this forces the slice error above any
fixed value, which bounds the number of iterations of the widening
loop. -/
theorem slice_lower_bound (c : FunnyCircle) (y h : ℝ)
    (hy : 0 ≤ y) (hh : 0 ≤ h) (hr : y + h ≤ c.diameter / 2) (w : ℝ) :
    w * h - (Real.pi * (c.diameter / 2) ^ 2 + (y + h) * (c.diameter / 2)) ≤
      ComputeSliceError c y h w := by
  have hr0 : 0 ≤ c.diameter / 2 := le_trans (by linarith) hr
  have hrr : c.diameter / 2 * (c.diameter / 2) = (c.diameter / 2) ^ 2 := by ring
  have hsq : Real.sqrt (c.diameter / 2 * (c.diameter / 2) - (y + h) * (y + h)) ≤
      c.diameter / 2 := by
    calc Real.sqrt (c.diameter / 2 * (c.diameter / 2) - (y + h) * (y + h))
        ≤ Real.sqrt (c.diameter / 2 * (c.diameter / 2)) :=
          Real.sqrt_le_sqrt (by nlinarith)
      _ = c.diameter / 2 := Real.sqrt_mul_self hr0
  have hsqy : Real.sqrt (c.diameter / 2 * (c.diameter / 2) - y * y) ≤ c.diameter / 2 := by
    calc Real.sqrt (c.diameter / 2 * (c.diameter / 2) - y * y)
        ≤ Real.sqrt (c.diameter / 2 * (c.diameter / 2)) :=
          Real.sqrt_le_sqrt (by nlinarith)
      _ = c.diameter / 2 := Real.sqrt_mul_self hr0
  have t1 : Real.arccos (y / (c.diameter / 2)) * (c.diameter / 2 * (c.diameter / 2)) ≤
      Real.pi * (c.diameter / 2) ^ 2 := by
    rw [hrr]
    exact mul_le_mul_of_nonneg_right (Real.arccos_le_pi _) (by positivity)
  have t2 : 0 ≤ Real.arccos ((y + h) / (c.diameter / 2)) *
      (c.diameter / 2 * (c.diameter / 2)) :=
    mul_nonneg (Real.arccos_nonneg _) (by positivity)
  have t3 : 0 ≤ y * Real.sqrt (c.diameter / 2 * (c.diameter / 2) - y * y) :=
    mul_nonneg hy (Real.sqrt_nonneg _)
  have t4 : (y + h) * Real.sqrt (c.diameter / 2 * (c.diameter / 2) - (y + h) * (y + h)) ≤
      (y + h) * (c.diameter / 2) :=
    mul_le_mul_of_nonneg_left hsq (by linarith)
  rw [ComputeSliceError]
  split
  · set A := Real.arccos (y / (c.diameter / 2)) * (c.diameter / 2 * (c.diameter / 2))
      - Real.arccos ((y + h) / (c.diameter / 2)) * (c.diameter / 2 * (c.diameter / 2))
      - y * Real.sqrt (c.diameter / 2 * (c.diameter / 2) - y * y)
      + (y + h) * Real.sqrt (c.diameter / 2 * (c.diameter / 2) - (y + h) * (y + h)) with hA
    have hAB0 : A ≤ Real.pi * (c.diameter / 2) ^ 2 + (y + h) * (c.diameter / 2) := by
      rw [hA]
      linarith
    clear_value A
    have habs := neg_abs_le (A - w * h)
    linarith [abs_nonneg (A - w * h), hAB0]
  · rename_i hw
    push_neg at hw
    rw [hw]
    have t5 : y * Real.sqrt (c.diameter / 2 * (c.diameter / 2) - y * y) ≤
        (y + h) * (c.diameter / 2) := by
      calc y * Real.sqrt (c.diameter / 2 * (c.diameter / 2) - y * y)
          ≤ y * (c.diameter / 2) := mul_le_mul_of_nonneg_left hsqy hy
        _ ≤ (y + h) * (c.diameter / 2) := by nlinarith
    have t6 : 0 ≤ Real.arccos (y / (c.diameter / 2)) *
        (c.diameter / 2 * (c.diameter / 2)) :=
      mul_nonneg (Real.arccos_nonneg _) (by positivity)
    have hpi : 0 ≤ Real.pi * (c.diameter / 2) ^ 2 := by positivity
    nlinarith

/-- With enough fuel (as guaranteed by the arithmetic hypothesis) the
widening loop ends with an explicit rejection: the slice error of the
returned width plus one more step of the appropriate kind is at least
the slice error of the returned width. -/
theorem outsideGo_final_reject (c : FunnyCircle) (y h pw : ℝ) (ap ae : Bool)
    (hy : 0 ≤ y) (hh : 0 < h) (hr : y + h ≤ c.diameter / 2) (hpw : 0 < pw) (E0 : ℝ) :
    ∀ (fuel : ℕ) (cur best : ℝ) (start : Bool),
      best = ComputeSliceError c y h cur →
      best ≤ E0 →
      E0 + (Real.pi * (c.diameter / 2) ^ 2 + (y + h) * (c.diameter / 2)) <
        cur * h + fuel * (pw * h) →
      ComputeSliceError c y h (outsideGo c y h pw ap ae fuel cur best start) ≤
        ComputeSliceError c y h (outsideGo c y h pw ap ae fuel cur best start +
          (if outsideGo c y h pw ap ae fuel cur best start = cur
           then (if start then seedStep pw ap ae else steadyStep pw ap)
           else steadyStep pw ap)) := by
  intro fuel
  induction fuel with
  | zero =>
    intro cur best start hbest hbE harith
    exfalso
    have hlow := slice_lower_bound c y h hy hh.le hr cur
    rw [← hbest] at hlow
    push_cast at harith
    linarith
  | succ n ih =>
    intro cur best start hbest hbE harith
    rw [outsideGo_succ]
    set t := if start = true then seedStep pw ap ae else steadyStep pw ap with ht
    have htge : pw ≤ t := stepOf_ge pw hpw.le ap ae start
    split
    · rename_i hacc
      have harith2 : E0 + (Real.pi * (c.diameter / 2) ^ 2 + (y + h) * (c.diameter / 2)) <
          (cur + t) * h + n * (pw * h) := by
        push_cast at harith ⊢
        nlinarith
      have hout_le : ComputeSliceError c y h (cur + t) ≤ E0 := le_trans hacc.le (hbest ▸ hbE)
      have hInner := ih (cur + t) (ComputeSliceError c y h (cur + t)) false rfl hout_le harith2
      have hstep : (if (false : Bool) = true then seedStep pw ap ae else steadyStep pw ap) =
          steadyStep pw ap := by simp
      rw [hstep, ite_self] at hInner
      have hRge : cur + t ≤ outsideGo c y h pw ap ae n (cur + t)
          (ComputeSliceError c y h (cur + t)) false :=
        outsideGo_le c y h pw ap ae hpw.le n _ _ _
      have hRne : outsideGo c y h pw ap ae n (cur + t)
          (ComputeSliceError c y h (cur + t)) false ≠ cur := by
        intro hcontra
        rw [hcontra] at hRge
        linarith
      rw [if_neg hRne]
      exact hInner
    · rename_i hrej
      rw [if_pos rfl]
      push_neg at hrej
      rw [hbest] at hrej
      exact hrej

end GreedyTermination

/-- C7: the outside-extension search, started at width W with error
sliceError(y, h, W): (1) never shrinks the width; (2) either returns W
unchanged, or the first candidate (W plus a seed step when W is zero and
a steady step otherwise, the seed step being one pip width unless pips
are aligned with even parity, the steady step being one pip width unless
pips are aligned) strictly improved the error, every accepted width is
the first candidate plus a number of steady steps, and the returned
width has strictly lower slice error than W; (3) the candidate one step
beyond the returned width does not improve: the search stops at the
first non-improving candidate. -/
theorem considerOutside_greedy_spec (c : FunnyCircle) (y h pw W : ℝ) (ap ae : Bool)
    (hy : 0 ≤ y) (hh : 0 < h) (hr : y + h ≤ c.diameter / 2) (hpw : 0 < pw)
    (hW : 0 ≤ W) :
    W ≤ ConsiderOutsidePieces c y h pw (ComputeSliceError c y h W) W ap ae ∧
    (ConsiderOutsidePieces c y h pw (ComputeSliceError c y h W) W ap ae = W ∨
      (ComputeSliceError c y h
          (W + (if W = 0 then seedStep pw ap ae else steadyStep pw ap)) <
         ComputeSliceError c y h W ∧
       ComputeSliceError c y h
          (ConsiderOutsidePieces c y h pw (ComputeSliceError c y h W) W ap ae) <
         ComputeSliceError c y h W ∧
       ∃ k : ℕ, ConsiderOutsidePieces c y h pw (ComputeSliceError c y h W) W ap ae =
         W + (if W = 0 then seedStep pw ap ae else steadyStep pw ap)
           + k * steadyStep pw ap)) ∧
    ComputeSliceError c y h
        (ConsiderOutsidePieces c y h pw (ComputeSliceError c y h W) W ap ae) ≤
      ComputeSliceError c y h
        (ConsiderOutsidePieces c y h pw (ComputeSliceError c y h W) W ap ae +
          (if ConsiderOutsidePieces c y h pw (ComputeSliceError c y h W) W ap ae = W
           then (if W = 0 then seedStep pw ap ae else steadyStep pw ap)
           else steadyStep pw ap)) := by
  have hstart : (if (if W = 0 then (true : Bool) else false) = true
      then seedStep pw ap ae else steadyStep pw ap) =
      (if W = 0 then seedStep pw ap ae else steadyStep pw ap) := by
    by_cases h0 : W = 0
    · simp [h0]
    · simp [h0]
  rw [ConsiderOutsidePieces]
  refine ⟨?_, ?_, ?_⟩
  · exact outsideGo_le c y h pw ap ae hpw.le _ _ _ _
  · have hsteps := outsideGo_steps c y h pw ap ae
      (outsideFuel c y h pw (ComputeSliceError c y h W)) W (ComputeSliceError c y h W)
      (if W = 0 then (true : Bool) else false) rfl
    rw [hstart] at hsteps
    exact hsteps
  · have hpwh : 0 < pw * h := mul_pos hpw hh
    have harith : ComputeSliceError c y h W +
        (Real.pi * (c.diameter / 2) ^ 2 + (y + h) * (c.diameter / 2)) <
        W * h + (outsideFuel c y h pw (ComputeSliceError c y h W)) * (pw * h) := by
      rw [outsideFuel]
      have hx : (ComputeSliceError c y h W +
          (Real.pi * (c.diameter / 2) ^ 2 + (y + h) * (c.diameter / 2))) ≤
          (⌈(ComputeSliceError c y h W +
            (Real.pi * (c.diameter / 2) ^ 2 + (y + h) * (c.diameter / 2)))
              / (pw * h)⌉₊ : ℝ) * (pw * h) := by
        calc ComputeSliceError c y h W +
            (Real.pi * (c.diameter / 2) ^ 2 + (y + h) * (c.diameter / 2))
            = (ComputeSliceError c y h W +
                (Real.pi * (c.diameter / 2) ^ 2 + (y + h) * (c.diameter / 2)))
                / (pw * h) * (pw * h) := by
              field_simp
              ring
          _ ≤ _ := mul_le_mul_of_nonneg_right (Nat.le_ceil _) hpwh.le
      have hWh : 0 ≤ W * h := mul_nonneg hW hh.le
      push_cast
      linarith
    have hfin := outsideGo_final_reject c y h pw ap ae hy hh hr hpw
      (ComputeSliceError c y h W)
      (outsideFuel c y h pw (ComputeSliceError c y h W)) W (ComputeSliceError c y h W)
      (if W = 0 then (true : Bool) else false) rfl (le_refl _) harith
    rw [hstart] at hfin
    exact hfin

/-- Witness for C7 at the disk of diameter 4, y = 0, h = 2, pip width 5,
starting width 0, unaligned. -/
theorem considerOutside_greedy_spec_witness :
    (0:ℝ) ≤ 0 ∧ (0:ℝ) < 2 ∧ (0:ℝ) + 2 ≤ (⟨4⟩ : FunnyCircle).diameter / 2 ∧ (0:ℝ) < 5 ∧
      (0:ℝ) ≤ ConsiderOutsidePieces ⟨4⟩ 0 2 5 (ComputeSliceError ⟨4⟩ 0 2 0) 0 false false :=
  ⟨le_refl 0, by norm_num, by norm_num, by norm_num,
    (considerOutside_greedy_spec ⟨4⟩ 0 2 5 0 false false (le_refl 0) (by norm_num)
      (by norm_num) (by norm_num) (le_refl 0)).1⟩

section AlignmentClaims

/-- The unrestricted width is never negative (Real.sqrt is nonnegative). -/
theorem UnrestrictedFit_nonneg (c : FunnyCircle) (y h : ℝ) : 0 ≤ UnrestrictedFit c y h := by
  rw [UnrestrictedFit]
  positivity

/-- The pip count equals the floor of the unrestricted width over the pip
width. -/
theorem width_in_pips_eq (c : FunnyCircle) (y h pw : ℝ) (hpw : pw ≠ 0) :
    width_in_pips c y h pw = ⌊UnrestrictedFit c y h / pw⌋ := by
  rw [width_in_pips, uw_min0_eq, mul_div_cancel_left₀ _ hpw, Int.floor_intCast]

/-- The quantized width is the pip count times the pip width. -/
theorem uw_min0_eq_pips (c : FunnyCircle) (y h pw : ℝ) (hpw : pw ≠ 0) :
    uw_min0 c y h pw = (width_in_pips c y h pw : ℝ) * pw := by
  rw [width_in_pips_eq c y h pw hpw, uw_min0_eq]
  ring

/-- The pip count is nonnegative for a positive pip width. -/
theorem width_in_pips_nonneg (c : FunnyCircle) (y h pw : ℝ) (hpw : 0 < pw) :
    0 ≤ width_in_pips c y h pw := by
  rw [width_in_pips_eq c y h pw hpw.ne']
  exact Int.floor_nonneg.mpr (div_nonneg (UnrestrictedFit_nonneg c y h) hpw.le)

end AlignmentClaims

/-- C8: with alignment enabled and a positive pip width, the row width
solver returns a nonnegative natural multiple of the pip width, with or
without the outside-extension search; and the parity adjustment keeps
the quantized width when the pip count parity matches (even when
align_even_number, odd otherwise), removes exactly one pip when it
mismatches and the pip count is positive, and leaves a zero pip count at
width zero. -/
theorem aligned_width_pip_multiple (c : FunnyCircle) (y h pw : ℝ) (ae co : Bool)
    (hpw : 0 < pw) :
    (∃ n : ℕ, UnrestrictedFitByPieceWidth c y h pw true ae co = n * pw) ∧
    ((ae = true ∧ width_in_pips c y h pw % 2 = 0) ∨
        (ae = false ∧ width_in_pips c y h pw % 2 ≠ 0) →
      alignedWidth c y h pw ae = (width_in_pips c y h pw : ℝ) * pw) ∧
    (¬((ae = true ∧ width_in_pips c y h pw % 2 = 0) ∨
        (ae = false ∧ width_in_pips c y h pw % 2 ≠ 0)) ∧ width_in_pips c y h pw ≠ 0 →
      alignedWidth c y h pw ae = ((width_in_pips c y h pw : ℝ) - 1) * pw) ∧
    (width_in_pips c y h pw = 0 → alignedWidth c y h pw ae = 0) := by
  have hpnn := width_in_pips_nonneg c y h pw hpw
  have huw := uw_min0_eq_pips c y h pw hpw.ne'
  have hmult : ∃ n : ℕ, alignedWidth c y h pw ae = n * pw := by
    rw [alignedWidth]
    split
    · refine ⟨(width_in_pips c y h pw).toNat, ?_⟩
      rw [huw]
      congr 1
      exact_mod_cast (Int.toNat_of_nonneg hpnn).symm
    · split
      · rename_i hcond hne
        refine ⟨(width_in_pips c y h pw - 1).toNat, ?_⟩
        rw [huw]
        have hc : ((width_in_pips c y h pw - 1).toNat : ℝ) =
            (width_in_pips c y h pw : ℝ) - 1 := by
          have h2 := Int.toNat_of_nonneg (by omega : 0 ≤ width_in_pips c y h pw - 1)
          exact_mod_cast congrArg (fun z : ℤ => (z : ℝ)) h2
        rw [hc]
        ring
      · refine ⟨(width_in_pips c y h pw).toNat, ?_⟩
        rw [huw]
        congr 1
        exact_mod_cast (Int.toNat_of_nonneg hpnn).symm
  refine ⟨?_, ?_, ?_, ?_⟩
  · rw [UnrestrictedFitByPieceWidth]
    cases co
    · simpa using hmult
    · simp only [if_pos rfl]
      rw [ConsiderOutsidePieces]
      apply outsideGo_pip_multiple
      simpa using hmult
  · intro hc
    rw [alignedWidth, if_pos hc, huw]
  · intro hc
    rw [alignedWidth, if_neg hc.1, if_pos hc.2, huw]
    ring
  · intro h0
    rw [alignedWidth]
    split
    · rw [huw, h0]
      norm_num
    · rw [if_neg (by simp [h0] : ¬(width_in_pips c y h pw ≠ 0)), huw, h0]
      norm_num

/-- Witness for C8 at the disk of diameter 20, y = 0, h = 2, pip width 5,
align even, no outside search. -/
theorem aligned_width_pip_multiple_witness :
    (0:ℝ) < 5 ∧ ∃ n : ℕ, UnrestrictedFitByPieceWidth ⟨20⟩ 0 2 5 true true false = n * 5 :=
  ⟨by norm_num, (aligned_width_pip_multiple ⟨20⟩ 0 2 5 true false (by norm_num)).1⟩

/-- C6 amended: for each individual row the outside-extension search
never worsens that row: the slice error of the width computed with the
outside search enabled is at most the slice error of the width computed
without it (the search starts from the latter width and only accepts
strict improvements).  The full-disk total error can nevertheless grow,
because a widened last row additionally triggers the zero-width sentinel
row whose cap area joins the sum (see the counterexample). -/
theorem rowWidth_outside_sliceError_le (c : FunnyCircle) (y h pw : ℝ) (ap ae : Bool) :
    ComputeSliceError c y h (UnrestrictedFitByPieceWidth c y h pw ap ae true) ≤
      ComputeSliceError c y h (UnrestrictedFitByPieceWidth c y h pw ap ae false) := by
  rw [UnrestrictedFitByPieceWidth, UnrestrictedFitByPieceWidth,
    if_pos rfl, if_neg Bool.false_ne_true]
  rw [ConsiderOutsidePieces]
  exact outsideGo_slice_le c y h pw ap ae _ _ _ _ rfl

/-- C9 counterexample: among the six (strategy, alignment) combinations
built by FitCircle, the aligned entries number four, not three (the
unaligned ones number two): the aligned champion is a minimum over four
solutions, the unaligned champion over two. -/
theorem aligned_entries_count_ne_three :
    ((sixCombos ⟨20⟩ 2 5 true).filter (fun x => x.2)).length ≠ 3 := by
  simp [sixCombos, List.filter]

/-- C9 amended: FitCircle builds exactly the six fixed (strategy,
alignment) combinations in source order, and reports as champions the
minimum error among the FOUR aligned entries and, independently, the
minimum error among the TWO unaligned entries, never comparing across
the classes. -/
theorem selector_six_combos_and_champions (d h pw : ℝ) (co : Bool) :
    sixCombos ⟨d⟩ h pw co =
      [(FitCircleSplitMiddle ⟨d⟩ h pw false false co, false),
       (FitCircleOffsetMiddleHalfPiece ⟨d⟩ h pw false false co, false),
       (FitCircleSplitMiddle ⟨d⟩ h pw true true co, true),
       (FitCircleOffsetMiddleHalfPiece ⟨d⟩ h pw true true co, true),
       (FitCircleSplitMiddle ⟨d⟩ h pw true false co, true),
       (FitCircleOffsetMiddleHalfPiece ⟨d⟩ h pw true false co, true)] ∧
    (FitCircle d h pw co).1 =
      min (min (min (FitCircleSplitMiddle ⟨d⟩ h pw true true co).2.2
            (FitCircleOffsetMiddleHalfPiece ⟨d⟩ h pw true true co).2.2)
          (FitCircleSplitMiddle ⟨d⟩ h pw true false co).2.2)
        (FitCircleOffsetMiddleHalfPiece ⟨d⟩ h pw true false co).2.2 ∧
    (FitCircle d h pw co).2 =
      min (FitCircleSplitMiddle ⟨d⟩ h pw false false co).2.2
        (FitCircleOffsetMiddleHalfPiece ⟨d⟩ h pw false false co).2.2 := by
  refine ⟨rfl, ?_, ?_⟩
  · simp [FitCircle, sixCombos, pythonMinVal, List.filter, List.foldl]
  · simp [FitCircle, sixCombos, pythonMinVal, List.filter, List.foldl]

section OutsideCounterexample

/-- Unfolding equation of the row loop at positive fuel. -/
theorem halfRowsAux_succ (c : FunnyCircle) (h pw : ℝ) (ap ae co : Bool)
    (fuel : ℕ) (y lastw : ℝ) :
    halfRowsAux c h pw ap ae co (fuel + 1) y lastw =
      if y + h ≤ c.diameter / 2 then
        (y, UnrestrictedFitByPieceWidth c y h pw ap ae co) ::
          halfRowsAux c h pw ap ae co fuel (y + h)
            (UnrestrictedFitByPieceWidth c y h pw ap ae co)
      else if lastw ≠ 0 then [(y, 0)] else [] := rfl

/-- The row loop with any nonzero fuel stops immediately when the next
row does not fit. -/
theorem halfRowsAux_stop_any (c : FunnyCircle) (h pw : ℝ) (ap ae co : Bool)
    (fuel : ℕ) (hfuel : fuel ≠ 0) (y lastw : ℝ)
    (hcond : ¬ (y + h ≤ c.diameter / 2)) :
    halfRowsAux c h pw ap ae co fuel y lastw =
      if lastw ≠ 0 then [(y, 0)] else [] := by
  cases fuel with
  | zero => exact absurd rfl hfuel
  | succ n => rw [halfRowsAux_succ, if_neg hcond]

/-- One accepted candidate followed by one rejected candidate: the
widening loop returns the single accepted step. -/
theorem outsideGo_accept_then_reject (c : FunnyCircle) (y h pw : ℝ) (ap ae : Bool)
    (m : ℕ) (E cur : ℝ) (start : Bool)
    (hacc : ComputeSliceError c y h
      (cur + (if start then seedStep pw ap ae else steadyStep pw ap)) < E)
    (hrej : ¬ (ComputeSliceError c y h
        (cur + (if start then seedStep pw ap ae else steadyStep pw ap) + steadyStep pw ap) <
      ComputeSliceError c y h
        (cur + (if start then seedStep pw ap ae else steadyStep pw ap)))) :
    outsideGo c y h pw ap ae (m + 2) cur E start =
      cur + (if start then seedStep pw ap ae else steadyStep pw ap) := by
  have hstep : (if (false : Bool) = true then seedStep pw ap ae else steadyStep pw ap) =
      steadyStep pw ap := by simp
  have h1 : m + 2 = (m + 1) + 1 := rfl
  rw [h1, outsideGo_succ, if_pos hacc, outsideGo_succ, hstep, if_neg hrej]

/-- Square facts about the disk of diameter 4 * sqrt 2. -/
theorem c6_rr : 4 * Real.sqrt 2 / 2 * (4 * Real.sqrt 2 / 2) = 8 := by
  have hs := Real.mul_self_sqrt (by norm_num : (0:ℝ) ≤ 2)
  linear_combination 4 * hs

/-- The arccos of sqrt 2 / 2 is a quarter of pi. -/
theorem arccos_sqrt_two_div_two : Real.arccos (Real.sqrt 2 / 2) = Real.pi / 4 := by
  rw [← Real.cos_pi_div_four]
  exact Real.arccos_cos (by positivity) (by linarith [Real.pi_pos])

/-- The zero-width slice error of the 4 * sqrt 2 disk at y = 0, h = 2 is
the half-disk area 4 pi. -/
theorem c6_slice_zero : ComputeSliceError ⟨4 * Real.sqrt 2⟩ 0 2 0 = 4 * Real.pi := by
  rw [ComputeSliceError, if_neg (by norm_num)]
  show Real.arccos (0 / (4 * Real.sqrt 2 / 2)) * (4 * Real.sqrt 2 / 2 * (4 * Real.sqrt 2 / 2))
      - 0 * Real.sqrt (4 * Real.sqrt 2 / 2 * (4 * Real.sqrt 2 / 2) - 0 * 0) = 4 * Real.pi
  rw [c6_rr, zero_div, Real.arccos_zero]
  ring

/-- The nonzero-width slice error of the 4 * sqrt 2 disk at y = 0, h = 2:
the band area is 2 pi + 4, so the error is the absolute difference with
the rectangle area 2 w. -/
theorem c6_slice_w (w : ℝ) (hw : w ≠ 0) :
    ComputeSliceError ⟨4 * Real.sqrt 2⟩ 0 2 w = |2 * Real.pi + 4 - 2 * w| := by
  have hs := Real.mul_self_sqrt (by norm_num : (0:ℝ) ≤ 2)
  have hden : (0:ℝ) < 4 * Real.sqrt 2 / 2 := by
    have : (0:ℝ) < Real.sqrt 2 := Real.sqrt_pos.mpr (by norm_num)
    linarith
  have harg : (0 + 2) / (4 * Real.sqrt 2 / 2) = Real.sqrt 2 / 2 := by
    rw [div_eq_div_iff hden.ne' (by norm_num : (2:ℝ) ≠ 0)]
    linear_combination (-2) * hs
  rw [ComputeSliceError, if_pos hw]
  show |Real.arccos (0 / (4 * Real.sqrt 2 / 2)) * (4 * Real.sqrt 2 / 2 * (4 * Real.sqrt 2 / 2))
      - Real.arccos ((0 + 2) / (4 * Real.sqrt 2 / 2)) * (4 * Real.sqrt 2 / 2 * (4 * Real.sqrt 2 / 2))
      - 0 * Real.sqrt (4 * Real.sqrt 2 / 2 * (4 * Real.sqrt 2 / 2) - 0 * 0)
      + (0 + 2) * Real.sqrt (4 * Real.sqrt 2 / 2 * (4 * Real.sqrt 2 / 2) - (0 + 2) * (0 + 2))
      - w * 2| = |2 * Real.pi + 4 - 2 * w|
  rw [c6_rr, harg, arccos_sqrt_two_div_two, zero_div, Real.arccos_zero]
  rw [show (8:ℝ) - (0 + 2) * (0 + 2) = 4 by norm_num, sqrt_four]
  congr 1
  ring

/-- The zero-width slice error of the 4 * sqrt 2 disk at y = 2, h = 2 is
the cap area 2 pi - 4. -/
theorem c6_slice_cap2 : ComputeSliceError ⟨4 * Real.sqrt 2⟩ 2 2 0 = 2 * Real.pi - 4 := by
  have hs := Real.mul_self_sqrt (by norm_num : (0:ℝ) ≤ 2)
  have hden : (0:ℝ) < 4 * Real.sqrt 2 / 2 := by
    have : (0:ℝ) < Real.sqrt 2 := Real.sqrt_pos.mpr (by norm_num)
    linarith
  have harg : (2:ℝ) / (4 * Real.sqrt 2 / 2) = Real.sqrt 2 / 2 := by
    rw [div_eq_div_iff hden.ne' (by norm_num : (2:ℝ) ≠ 0)]
    linear_combination (-2) * hs
  rw [ComputeSliceError, if_neg (by norm_num)]
  show Real.arccos (2 / (4 * Real.sqrt 2 / 2)) * (4 * Real.sqrt 2 / 2 * (4 * Real.sqrt 2 / 2))
      - 2 * Real.sqrt (4 * Real.sqrt 2 / 2 * (4 * Real.sqrt 2 / 2) - 2 * 2) =
      2 * Real.pi - 4
  rw [c6_rr, harg, arccos_sqrt_two_div_two]
  rw [show (8:ℝ) - 2 * 2 = 4 by norm_num, sqrt_four]
  ring

/-- The unrestricted width of the 4 * sqrt 2 disk at y = 0, h = 2 is 4. -/
theorem c6_uw : UnrestrictedFit ⟨4 * Real.sqrt 2⟩ 0 2 = 4 := by
  rw [UnrestrictedFit]
  show 2 * Real.sqrt ((4 * Real.sqrt 2 / 2) ^ 2 - (0 + 2) ^ 2) = 4
  have h8 : (4 * Real.sqrt 2 / 2) ^ 2 = 8 := by
    rw [sq]
    exact c6_rr
  rw [h8, show (8:ℝ) - (0 + 2) ^ 2 = 4 by norm_num, sqrt_four]
  norm_num

/-- With pip width 11 the width 4 quantizes down to zero. -/
theorem c6_uwmin : uw_min0 ⟨4 * Real.sqrt 2⟩ 0 2 11 = 0 := by
  rw [uw_min0_eq, c6_uw, show ⌊(4:ℝ) / 11⌋ = 0 by norm_num [Int.floor_eq_iff]]
  norm_num

/-- Without the outside search the first row of the 4 * sqrt 2 disk gets
width 0. -/
theorem c6_w_false :
    UnrestrictedFitByPieceWidth ⟨4 * Real.sqrt 2⟩ 0 2 11 false false false = 0 := by
  rw [UnrestrictedFitByPieceWidth, if_neg Bool.false_ne_true, if_neg Bool.false_ne_true]
  exact c6_uwmin

/-- With the outside search the first row of the 4 * sqrt 2 disk grows to
width 11: the candidate 11 strictly improves on the empty row (18 - 2 pi
versus 4 pi) and the candidate 22 does not (40 - 2 pi). -/
theorem c6_w_true :
    UnrestrictedFitByPieceWidth ⟨4 * Real.sqrt 2⟩ 0 2 11 false false true = 11 := by
  have hseed : (if (true : Bool) = true then seedStep (11:ℝ) false false
      else steadyStep 11 false) = 11 := by
    simp [seedStep]
  have hsteady : steadyStep (11:ℝ) false = 11 := by simp [steadyStep]
  have hpi9 : Real.pi < 3.15 := Real.pi_lt_d2
  have hpi3 : (3:ℝ) < Real.pi := Real.pi_gt_three
  have h11 : ComputeSliceError ⟨4 * Real.sqrt 2⟩ 0 2 (0 + 11) = 18 - 2 * Real.pi := by
    rw [show (0:ℝ) + 11 = 11 by norm_num, c6_slice_w 11 (by norm_num)]
    rw [abs_of_neg (by linarith : 2 * Real.pi + 4 - 2 * 11 < 0)]
    ring
  have h22 : ComputeSliceError ⟨4 * Real.sqrt 2⟩ 0 2 (0 + 11 + 11) = 40 - 2 * Real.pi := by
    rw [show (0:ℝ) + 11 + 11 = 22 by norm_num, c6_slice_w 22 (by norm_num)]
    rw [abs_of_neg (by linarith : 2 * Real.pi + 4 - 2 * 22 < 0)]
    ring
  rw [UnrestrictedFitByPieceWidth, if_pos rfl, if_neg Bool.false_ne_true, c6_uwmin,
    ConsiderOutsidePieces, if_pos rfl, outsideFuel]
  refine Eq.trans (outsideGo_accept_then_reject _ _ _ _ _ _ _ _ _ _ ?_ ?_) ?_
  · rw [hseed, h11, c6_slice_zero]
    linarith
  · rw [hseed, hsteady, h22, h11]
    push_neg
    linarith
  · rw [hseed]
    norm_num

/-- Without the outside search the half-disk row list of the 4 * sqrt 2
disk is the single zero-width row at y = 0 (no sentinel). -/
theorem c6_rows_false :
    UnrestrictedFitHalf ⟨4 * Real.sqrt 2⟩ 2 11 0 false false false = [(0, 0)] := by
  have hs := Real.mul_self_sqrt (by norm_num : (0:ℝ) ≤ 2)
  have hsn := Real.sqrt_nonneg 2
  have hs2a : (1:ℝ) ≤ Real.sqrt 2 := by nlinarith
  have hs2b : Real.sqrt 2 < 2 := by nlinarith
  have hd : (⟨4 * Real.sqrt 2⟩ : FunnyCircle).diameter = 4 * Real.sqrt 2 := rfl
  have hcond1 : (0:ℝ) + 2 ≤ 4 * Real.sqrt 2 / 2 := by linarith
  have hcond2 : ¬ ((0:ℝ) + 2 + 2 ≤ 4 * Real.sqrt 2 / 2) := by
    push_neg
    linarith
  have hM : (⌈(4 * Real.sqrt 2 / 2 - 0) / 2⌉₊ : ℕ) ≠ 0 := by
    intro hcontra
    rw [Nat.ceil_eq_zero] at hcontra
    have := Real.sqrt_pos.mpr (show (0:ℝ) < 2 by norm_num)
    linarith
  rw [UnrestrictedFitHalf, halfFuel]
  simp only [hd]
  rw [halfRowsAux_succ]
  simp only [hd]
  rw [if_pos hcond1, c6_w_false,
    halfRowsAux_stop_any _ _ _ _ _ _ _ hM _ _ (by simpa only [hd] using hcond2)]
  simp

/-- With the outside search the half-disk row list of the 4 * sqrt 2 disk
is the width 11 row at y = 0 followed by the zero-width sentinel. -/
theorem c6_rows_true :
    UnrestrictedFitHalf ⟨4 * Real.sqrt 2⟩ 2 11 0 false false true = [(0, 11), (0 + 2, 0)] := by
  have hs := Real.mul_self_sqrt (by norm_num : (0:ℝ) ≤ 2)
  have hsn := Real.sqrt_nonneg 2
  have hs2a : (1:ℝ) ≤ Real.sqrt 2 := by nlinarith
  have hs2b : Real.sqrt 2 < 2 := by nlinarith
  have hd : (⟨4 * Real.sqrt 2⟩ : FunnyCircle).diameter = 4 * Real.sqrt 2 := rfl
  have hcond1 : (0:ℝ) + 2 ≤ 4 * Real.sqrt 2 / 2 := by linarith
  have hcond2 : ¬ ((0:ℝ) + 2 + 2 ≤ 4 * Real.sqrt 2 / 2) := by
    push_neg
    linarith
  have hM : (⌈(4 * Real.sqrt 2 / 2 - 0) / 2⌉₊ : ℕ) ≠ 0 := by
    intro hcontra
    rw [Nat.ceil_eq_zero] at hcontra
    have := Real.sqrt_pos.mpr (show (0:ℝ) < 2 by norm_num)
    linarith
  rw [UnrestrictedFitHalf, halfFuel]
  simp only [hd]
  rw [halfRowsAux_succ]
  simp only [hd]
  rw [if_pos hcond1, c6_w_true,
    halfRowsAux_stop_any _ _ _ _ _ _ _ hM _ _ (by simpa only [hd] using hcond2)]
  norm_num

/-- C6 counterexample: for the disk of diameter 4 * sqrt 2 with piece
height 2 and pip width 11, unaligned, split-at-equator, the total error
with the outside search enabled (28) is strictly larger than without it
(8 pi, about 25.13): the search widens the single row from 0 to 11,
which strictly improves that row, but the now nonzero last width makes
the loop append the zero-width sentinel row whose cap area joins the
total. -/
theorem outside_total_error_can_increase :
    (FitCircleSplitMiddle ⟨4 * Real.sqrt 2⟩ 2 11 false false false).2.2 <
      (FitCircleSplitMiddle ⟨4 * Real.sqrt 2⟩ 2 11 false false true).2.2 := by
  have hpi9 : Real.pi < 3.15 := Real.pi_lt_d2
  have hpi3 : (3:ℝ) < Real.pi := Real.pi_gt_three
  have hfalse : (FitCircleSplitMiddle ⟨4 * Real.sqrt 2⟩ 2 11 false false false).2.2 =
      8 * Real.pi := by
    simp only [FitCircleSplitMiddle, c6_rows_false, ComputeError, List.map, List.sum_cons,
      List.sum_nil]
    rw [c6_slice_zero]
    ring
  have hs11 : ComputeSliceError ⟨4 * Real.sqrt 2⟩ 0 2 11 = 18 - 2 * Real.pi := by
    rw [c6_slice_w 11 (by norm_num)]
    rw [abs_of_neg (by linarith : 2 * Real.pi + 4 - 2 * 11 < 0)]
    ring
  have htrue : (FitCircleSplitMiddle ⟨4 * Real.sqrt 2⟩ 2 11 false false true).2.2 = 28 := by
    simp only [FitCircleSplitMiddle, c6_rows_true, ComputeError, List.map, List.sum_cons,
      List.sum_nil]
    rw [hs11, show (0:ℝ) + 2 = 2 by norm_num, c6_slice_cap2]
    ring
  rw [hfalse, htrue]
  linarith

end OutsideCounterexample
